import Mathlib

/-!
A verification development for the go-sx struct-to-SQL mapping layer
(repository travelaudience/go-sx).  The definitions below are a shallow
embedding of the Go source: the field-to-column matching engine
(`matchingOf`, file matching.go), the snake-case column-name deriver
(`snakeCase`), the placeholder generator (placeholder.go) and the
statement builders (helpers.go).  Go panics and error returns are both
modelled with `Except String`; the process-wide numbered-placeholder
flag is threaded as an explicit `numbered : Bool` argument; reflection
over a struct is modelled by an explicit list of field descriptors.
-/

deriving instance DecidableEq for Except

namespace Sx

/-! ## Character classes

The Go source uses the RE2 character classes `[A-Z]`, `[a-z]` and
`[a-z0-9]` (ASCII-only), and `strings.ToLower` (which agrees with
ASCII lowercasing on ASCII input). -/

/-- ASCII uppercase letter, the regexp class `[A-Z]`. -/
def isUp (c : Char) : Bool := 65 ≤ c.toNat && c.toNat ≤ 90

/-- ASCII lowercase letter, the regexp class `[a-z]`. -/
def isLow (c : Char) : Bool := 97 ≤ c.toNat && c.toNat ≤ 122

/-- ASCII digit, the `0-9` part of the regexp class `[a-z0-9]`. -/
def isDig (c : Char) : Bool := 48 ≤ c.toNat && c.toNat ≤ 57

/-- ASCII letter or digit: the character inventory of a Go identifier
used as a field name (spec section 4.1 input contract). -/
def isAlnum (c : Char) : Bool := isUp c || isLow c || isDig c

/-- ASCII lowercasing of one character, as `strings.ToLower` acts on
ASCII input. -/
def lowerChar (c : Char) : Char :=
  if isUp c then Char.ofNat (c.toNat + 32) else c

/-! ## The snake-case deriver

Go source (matching.go):

    matchWord    = regexp.MustCompile(`(.)([A-Z][a-z]+)`)
    matchAcronym = regexp.MustCompile(`([a-z0-9])([A-Z])`)

    func snakeCase(in string) string {
        const r = `${1}_${2}`
        return strings.ToLower(matchAcronym.ReplaceAllString(matchWord.ReplaceAllString(in, r), r))
    }

`ReplaceAllString` replaces successive non-overlapping leftmost
matches; `[a-z]+` is greedy, so a match of `matchWord` consumes one
character, one uppercase letter and the maximal following run of
lowercase letters.  The recursion below mirrors that scan directly;
it treats the regexp dot as "any character", which is accurate for
all newline-free inputs (field names are Go identifiers).  The scan
is written with an explicit fuel argument (always called with the
length of the list) so that it is structural and kernel-evaluable. -/

/-- True when the list starts with an ASCII lowercase letter: whether
`[a-z]+` can match at the current position. -/
def headIsLow : List Char → Bool
  | [] => false
  | e :: _ => isLow e

/-- One pass of `matchWord.ReplaceAllString(in, "${1}_${2}")`: at each
position try to match `(.)([A-Z][a-z]+)` (any character, an uppercase
letter, a maximal nonempty run of lowercase letters); on a match emit
the replacement and resume after the match, otherwise emit one
character and advance. -/
def replWordF : Nat → List Char → List Char
  | _, [] => []
  | _, [c] => [c]
  | 0, l => l
  | fuel + 1, c :: d :: rest =>
    if isUp d && headIsLow rest then
      c :: '_' :: d :: (rest.takeWhile isLow ++ replWordF fuel (rest.dropWhile isLow))
    else
      c :: replWordF fuel (d :: rest)

/-- The `matchWord` replacement pass (fuel instantiated). -/
def replWord (l : List Char) : List Char := replWordF l.length l

/-- One pass of `matchAcronym.ReplaceAllString(in, "${1}_${2}")`: at
each position try to match `([a-z0-9])([A-Z])`; on a match emit the
replacement and resume after the two matched characters, otherwise
emit one character and advance. -/
def replAcr : List Char → List Char
  | [] => []
  | [c] => [c]
  | c :: d :: rest =>
    if (isLow c || isDig c) && isUp d then
      c :: '_' :: d :: replAcr rest
    else
      c :: replAcr (d :: rest)

/-- The snake-case deriver `snakeCase` from matching.go: the
`matchWord` pass, then the `matchAcronym` pass, then lowercasing. -/
def snakeCase (s : String) : String :=
  String.mk ((replAcr (replWord s.data)).map lowerChar)

/-! ## Values

A Go value held in a struct field, as far as the builders inspect
one: they ask whether it is the zero value of its kind, whether it is
a pointer, and what a pointer points at.  `interface{}` results are
also of this type. -/

/-- A runtime value stored in a struct field.  A nil pointer is
`nilPtr`; a non-nil pointer to `v` is `ptrTo v`. -/
inductive Value where
  | str : String → Value
  | int : Int → Value
  | bool : Bool → Value
  | nilPtr : Value
  | ptrTo : Value → Value
deriving DecidableEq, Repr

/-- Modelled from the spec: the helper `valueIsZero`, called by
`UpdateQuery` (helpers.go line 146) but defined in a repository file
that is not under src/.  Spec section 4.4: "a field is considered
unset and skipped if it holds the zero value for its kind (empty
string, zero number, false, nil reference/pointer)"; "for a
pointer-typed field, the zero check is on the pointer itself (nil
pointer = skip)". -/
def valueIsZero : Value → Bool
  | .str s => s = ""
  | .int n => n = 0
  | .bool b => !b
  | .nilPtr => true
  | .ptrTo _ => false

/-- The pointer dereference `UpdateQuery` performs before appending a
value: "if val.Kind() == reflect.Ptr { val = val.Elem() }".  Only
reached on non-zero values, so never on a nil pointer; on `nilPtr`
(where Go's `Interface()` on the invalid `Elem()` would panic) it
returns the value unchanged. -/
def derefPtr : Value → Value
  | .ptrTo v => v
  | .nilPtr => .nilPtr
  | v => v

/-! ## Struct introspection

`reflect` usage is modelled by explicit descriptors: a struct type is
an ordered list of fields, each with its identifier, the value of its
`sx` struct tag (`""` when absent, as `Tag.Get` returns), and an
exported flag (Go: `PkgPath == ""`).  A struct instance additionally
carries the current value of every field. -/

/-- One struct field: identifier, `sx` tag text, exported flag, and
(for instance-level operations) its current value. -/
structure Field where
  name : String
  tag : String
  exported : Bool
  value : Value
deriving DecidableEq, Repr

/-- A struct (type together with instance data): the type name
(`reflect.Type.Name()`) and the ordered field list. -/
structure StructVal where
  name : String
  fields : List Field
deriving DecidableEq, Repr

/-- A dynamic value passed to the sx API as `interface{}`.  Only
`ptrStruct` (a non-nil pointer to a struct) passes the shape check in
`matchingOf`; `nilV` is a nil interface (Kind Invalid), `strV` a
string, `structV` a struct passed by value, and `ptrNilStruct` a
typed nil struct pointer (whose `Elem()` has Kind Invalid). -/
inductive GoValue where
  | nilV : GoValue
  | strV : String → GoValue
  | structV : StructVal → GoValue
  | ptrNilStruct : GoValue
  | ptrStruct : StructVal → GoValue
deriving DecidableEq, Repr

/-- Whether the shape check `v.Kind() == reflect.Ptr && v.Elem().Kind()
== reflect.Struct` passes. -/
def isPtrStruct : GoValue → Bool
  | .ptrStruct _ => true
  | _ => false

/-- The struct a `GoValue` points at (`reflect.ValueOf(data).Elem()`).
Only used after `matchingOf` has succeeded, so the catch-all default
is unreachable there. -/
def structOf : GoValue → StructVal
  | .ptrStruct sv => sv
  | _ => ⟨"", []⟩

/-- The value of field number `i` of a struct instance
(`instance.Field(i)`).  Indices produced by the matching are always
in range; the default is unreachable. -/
def fieldValue (sv : StructVal) (i : Nat) : Value :=
  ((sv.fields.get? i).map Field.value).getD .nilPtr

/-! ## The matching engine (matching.go) -/

/-- One column descriptor: position of the field in the struct, the
database column name, and the read-only flag. -/
structure Column where
  index : Nat
  name : String
  readonly : Bool
deriving DecidableEq, Repr

/-- A matching between the fields of one struct type and database
columns: the type name, the ordered column list, and the lookup from
field name to column (Go: a map; field names in a struct are unique,
so an association list searched front-to-back is equivalent). -/
structure Matching where
  name : String
  columns : List Column
  columnMap : List (String × Column)
deriving DecidableEq, Repr

/-- `strings.Split(tag, ",")` for a single-character separator: split
the tag at every comma.  `Split("", ",")` is `[""]`. -/
def splitTagAux : List Char → List Char → List String
  | [], acc => [String.mk acc.reverse]
  | c :: rest, acc =>
    if c = ',' then String.mk acc.reverse :: splitTagAux rest []
    else splitTagAux rest (c :: acc)

/-- The tag segments of a field: `strings.Split(field.Tag.Get("sx"), ",")`. -/
def splitTag (tag : String) : List String := splitTagAux tag.data []

/-- The column descriptor built for a surviving field at position
`i`: the column name is the first tag segment if nonempty, else the
snake-cased field name; the read-only flag is set when a later tag
segment equals `readonly` (Go: the loop over `tags[1:]`). -/
def colOf (i : Nat) (f : Field) : Column :=
  ⟨i,
   if (splitTag f.tag).headD "" = "" then snakeCase f.name
   else (splitTag f.tag).headD "",
   ((splitTag f.tag).drop 1).contains "readonly"⟩

/-- The field-scanning loop of `matchingOf`, processing the fields
from position `i` on and returning the ordered column list together
with the field-name lookup entries.  Per field: skip it when the
first tag segment is `-` or the field is unexported; otherwise
append `colOf` both to the list and to the lookup. -/
def buildMatching (i : Nat) : List Field → List Column × List (String × Column)
  | [] => ([], [])
  | f :: rest =>
    let (cols, cmap) := buildMatching (i + 1) rest
    if (splitTag f.tag).headD "" = "-" || !f.exported then
      (cols, cmap)
    else
      (colOf i f :: cols, (f.name, colOf i f) :: cmap)

/-- `matchingOf` (matching.go): panics — modelled as `Except.error` —
with `"sx: expected a pointer to a struct"` unless given a non-nil
pointer to a struct, and with `"sx: struct <T> has no usable fields"`
when the field scan yields no columns.  The per-type cache is pure
memoization of this deterministic construction (guarded by a mutex,
written only after a successful construction), so it is
observationally transparent and not modelled. -/
def matchingOf (datatype : GoValue) : Except String Matching :=
  match datatype with
  | .ptrStruct sv =>
    if (buildMatching 0 sv.fields).1.isEmpty then
      .error ("sx: struct " ++ sv.name ++ " has no usable fields")
    else
      .ok ⟨sv.name, (buildMatching 0 sv.fields).1, (buildMatching 0 sv.fields).2⟩
  | _ => .error "sx: expected a pointer to a struct"

/-- `matching.columnList`: the column names in struct order. -/
def columnList (m : Matching) : List String := m.columns.map Column.name

/-- `matching.columnWriteableList`: the column names in struct order,
excluding read-only columns. -/
def columnWriteableList : List Column → List String
  | [] => []
  | c :: rest =>
    if !c.readonly then c.name :: columnWriteableList rest
    else columnWriteableList rest

/-! ## The placeholder generator (placeholder.go)

`type Placeholder int` with a process-wide mode flag set by
`SetNumberedPlaceholders`; the flag is threaded here as the explicit
argument `numbered`. -/

/-- `Placeholder.String`: render the current counter value, `"$n"` in
numbered mode and the literal `"?"` otherwise. -/
def placeholderString (numbered : Bool) (p : Int) : String :=
  if numbered then "$" ++ toString p else "?"

/-- `Placeholder.Next`: increment the counter, then render it
(pre-increment semantics).  Returns the rendered marker and the new
counter value. -/
def placeholderNext (numbered : Bool) (p : Int) : String × Int :=
  (placeholderString numbered (p + 1), p + 1)

/-! ## The statement builders (helpers.go) -/

/-- The separator-threading concatenation loop shared by the string
builders: write the current separator, then the item, and switch the
separator to `','` after the first item.  (Go: `bob.WriteByte(sep);
bob.WriteString(x); sep = ','`.) -/
def writeList (sep : Char) : List String → String
  | [] => ""
  | x :: rest => String.mk [sep] ++ x ++ writeList ',' rest

/-- `SelectQuery`: `"SELECT <c1>,<c2>,... FROM <table>"` over all
columns of the matching. -/
def SelectQuery (table : String) (datatype : GoValue) : Except String String := do
  let m ← matchingOf datatype
  return "SELECT" ++ writeList ' ' (columnList m) ++ " FROM " ++ table

/-- `SelectAliasQuery`: like `SelectQuery` with every column prefixed
by the alias and the alias trailing the table. -/
def SelectAliasQuery (table als : String) (datatype : GoValue) :
    Except String String := do
  let m ← matchingOf datatype
  return "SELECT" ++ writeList ' ' ((columnList m).map (fun n => als ++ "." ++ n))
    ++ " FROM " ++ table ++ " " ++ als

/-- The placeholder loop of `InsertQuery`: `for p := Placeholder(0);
p < Placeholder(n); { bob.WriteString(p.Next()) }` emits one marker
per remaining iteration, pre-incrementing the counter each time; the
loop runs `n - p` times, here counted down by the `count` argument. -/
def phLoop (numbered : Bool) (p : Int) : Nat → List String
  | 0 => []
  | count + 1 => (placeholderNext numbered p).1 :: phLoop numbered (p + 1) count

/-- `InsertQuery`: `"INSERT INTO <table> (<writeable columns>) VALUES
(<placeholders>)"`; read-only columns are skipped, and a struct whose
every column is read-only panics with
`"sx: struct <T> has no writeable fields"`. -/
def InsertQuery (numbered : Bool) (table : String) (datatype : GoValue) :
    Except String String := do
  let m ← matchingOf datatype
  let wnames := columnWriteableList m.columns
  if wnames.isEmpty then
    .error ("sx: struct " ++ m.name ++ " has no writeable fields")
  else
    return "INSERT INTO " ++ table ++ " " ++ writeList '(' wnames
      ++ ") VALUES " ++ writeList '(' (phLoop numbered 0 wnames.length) ++ ")"

/-- The column/value-collecting loop of `UpdateQuery`: for each
non-read-only column whose field value is not the zero value, append
`"<name>=" + p.Next()` and the (pointer-dereferenced) field value. -/
def updateCols (numbered : Bool) (sv : StructVal) (p : Int) :
    List Column → List String × List Value
  | [] => ([], [])
  | c :: rest =>
    if !c.readonly then
      let val := fieldValue sv c.index
      if !valueIsZero val then
        let (cols, vals) := updateCols numbered sv (p + 1) rest
        ((c.name ++ "=" ++ (placeholderNext numbered p).1) :: cols,
         derefPtr val :: vals)
      else updateCols numbered sv p rest
    else updateCols numbered sv p rest

/-- `UpdateQuery`: `"UPDATE <table> SET <name>=<ph>,..."` over the
writeable columns holding non-zero values, plus the matching value
list; `("", [])` when no column qualifies.  The placeholder counter
starts at 1, reserving the first numbered marker for the caller's
WHERE clause. -/
def UpdateQuery (numbered : Bool) (table : String) (data : GoValue) :
    Except String (String × List Value) := do
  let m ← matchingOf data
  let sv := structOf data
  let (cols, vals) := updateCols numbered sv 1 m.columns
  if cols.isEmpty then
    return ("", [])
  else
    return ("UPDATE " ++ table ++ " SET " ++ String.intercalate "," cols, vals)

/-- The column-collecting loop of `UpdateAllQuery`: every writeable
column, no zero-value skipping. -/
def updateAllCols (numbered : Bool) (p : Int) : List Column → List String
  | [] => []
  | c :: rest =>
    if !c.readonly then
      (c.name ++ "=" ++ (placeholderNext numbered p).1) :: updateAllCols numbered (p + 1) rest
    else updateAllCols numbered p rest

/-- `UpdateAllQuery`: `"UPDATE <table> SET <name>=<ph>,..."` over all
writeable columns.  The placeholder counter starts at 1. -/
def UpdateAllQuery (numbered : Bool) (table : String) (data : GoValue) :
    Except String String := do
  let m ← matchingOf data
  return "UPDATE " ++ table ++ " SET "
    ++ String.intercalate "," (updateAllCols numbered 1 m.columns)

/-- The field-resolving loop of `UpdateFieldsQuery`: look every
requested field name up in the matching's field-name lookup, in the
caller's order; an unknown name panics with `"struct <T> has no
usable field <f>"`; a resolved column contributes `"<name>=<ph>"` and
the raw field value (no pointer dereference, no zero skipping). -/
def updateFieldsAux (numbered : Bool) (sv : StructVal) (m : Matching) (p : Int) :
    List String → Except String (List String × List Value)
  | [] => .ok ([], [])
  | f :: rest =>
    match m.columnMap.lookup f with
    | some c => do
      let (cols, vals) ← updateFieldsAux numbered sv m (p + 1) rest
      return ((c.name ++ "=" ++ (placeholderNext numbered p).1) :: cols,
        fieldValue sv c.index :: vals)
    | none => .error ("struct " ++ m.name ++ " has no usable field " ++ f)

/-- `UpdateFieldsQuery`: `"UPDATE <table> SET ..."` over exactly the
named fields in the caller's order (read-only fields permitted),
panicking on an empty field list or an unresolvable name.  The
placeholder counter starts at 1. -/
def UpdateFieldsQuery (numbered : Bool) (table : String) (data : GoValue)
    (fields : List String) : Except String (String × List Value) := do
  let m ← matchingOf data
  let sv := structOf data
  if fields.isEmpty then
    .error "UpdateFieldsQuery requires at least one field"
  else do
    let (cols, vals) ← updateFieldsAux numbered sv m 1 fields
    return ("UPDATE " ++ table ++ " SET " ++ String.intercalate "," cols, vals)

/-- The address of one struct field, `val.Field(i).Addr().Interface()`:
identified by the field's position in the struct. -/
inductive Addr where
  | fieldAddr : Nat → Addr
deriving DecidableEq, Repr

/-- `Addrs`: one field address per column of the matching, in matching
order, read-only columns included. -/
def Addrs (dest : GoValue) : Except String (List Addr) := do
  let m ← matchingOf dest
  return m.columns.map (fun c => Addr.fieldAddr c.index)

/-- The value-collecting loop of `Values`: one field value per
non-read-only column, in matching order, with no zero-value skipping. -/
def valuesAux (sv : StructVal) : List Column → List Value
  | [] => []
  | c :: rest =>
    if !c.readonly then fieldValue sv c.index :: valuesAux sv rest
    else valuesAux sv rest

/-- `Values`: the writeable-column field values of a struct instance,
for binding to an INSERT. -/
def Values (data : GoValue) : Except String (List Value) := do
  let m ← matchingOf data
  return valuesAux (structOf data) m.columns

/-- `Columns`: the column names of the matching, in struct order. -/
def Columns (datatype : GoValue) : Except String (List String) := do
  let m ← matchingOf datatype
  return columnList m

/-- `ColumnsWriteable`: the non-read-only column names, in struct
order. -/
def ColumnsWriteable (datatype : GoValue) : Except String (List String) := do
  let m ← matchingOf datatype
  return columnWriteableList m.columns

/-- `ColumnOf`: the column name for one field, or the error value
`"struct <T> has no usable field <f>"` (the recoverable lookup). -/
def ColumnOf (datatype : GoValue) (field : String) : Except String String := do
  let m ← matchingOf datatype
  match m.columnMap.lookup field with
  | some c => return c.name
  | none => .error ("struct " ++ m.name ++ " has no usable field " ++ field)

/-- `matching.columnOf`, the panicking field lookup used by `ValueOf`:
message `"sx: struct <T> has no usable field <f>"`. -/
def columnOfM (m : Matching) (field : String) : Except String Column :=
  match m.columnMap.lookup field with
  | some c => .ok c
  | none => .error ("sx: struct " ++ m.name ++ " has no usable field " ++ field)

/-- `ValueOf`: the value of one named field of a struct instance,
via the panicking lookup. -/
def ValueOf (data : GoValue) (field : String) : Except String Value := do
  let m ← matchingOf data
  let c ← columnOfM m field
  return fieldValue (structOf data) c.index

/-! ## Derived forms used to state the theorems -/

/-- The assignment strings `"<name>=<ph>"` produced for a column list
when the placeholder counter stands at `p`: one `Next` call per
column. -/
def phNames (numbered : Bool) (p : Int) : List Column → List String
  | [] => []
  | c :: rest => (c.name ++ "=" ++ (placeholderNext numbered p).1) :: phNames numbered (p + 1) rest

/-- The columns `UpdateQuery` selects: writeable (not read-only) and
currently holding a non-zero value. -/
def selCols (sv : StructVal) (cols : List Column) : List Column :=
  cols.filter (fun c => !c.readonly && !valueIsZero (fieldValue sv c.index))

/-- The writeable columns, as selected by `InsertQuery`,
`UpdateAllQuery` and `Values`. -/
def writeableCols (cols : List Column) : List Column :=
  cols.filter (fun c => !c.readonly)

/-- Spec section 4.1's description of a word boundary between a
character `c` and the following character `d` (`rest` being the
characters after `d`): `d` is uppercase and either (a) `c` is
lowercase-or-digit, or (b) `d` begins a Capitalized word, i.e. is
followed by at least one lowercase letter. -/
def specBoundary (c d : Char) (rest : List Char) : Bool :=
  isUp d && ((isLow c || isDig c) || headIsLow rest)

/-- Underscore insertion exactly at the spec's boundaries: emit each
character, adding `'_'` after it whenever a boundary separates it
from its successor. -/
def specMark : List Char → List Char
  | [] => []
  | [c] => [c]
  | c :: d :: rest =>
    if specBoundary c d rest then c :: '_' :: specMark (d :: rest)
    else c :: specMark (d :: rest)

/-- The spec's description of the name deriver (section 4.1), stated
independently of the source: the input lowercased, with an underscore
inserted at exactly the boundary positions of `specBoundary`.  Used
only to be compared against `snakeCase`. -/
def snakeCaseSpec (s : String) : String :=
  String.mk ((specMark s.data).map lowerChar)

/-! ## Concrete structs used by the witnesses -/

/-- The `Platypus string; Rhinoceros float64` struct of the spec's
test vector (helpers_test.go `menagerie0`), with zero field values. -/
def menagerie0 : StructVal :=
  ⟨"menagerie0",
   [⟨"Platypus", "", true, .str ""⟩,
    ⟨"Rhinoceros", "", true, .int 0⟩]⟩

/-- A struct with a read-only field, an excluded field and plain
fields (helpers_test.go `menagerie2` shape): `Cougar` plain,
`Cheetah` a pointer field named `cat`, `Grizzly` plain, `Ant`
excluded by `-`, `Bee` read-only. -/
def menagerie2 (cougar : Value) (cheetah : Value) (grizzly : Value) : StructVal :=
  ⟨"menagerie2",
   [⟨"Cougar", "", true, cougar⟩,
    ⟨"Cheetah", "cat", true, cheetah⟩,
    ⟨"Grizzly", "", true, grizzly⟩,
    ⟨"Ant", "-", true, .bool true⟩,
    ⟨"Bee", ",readonly", true, .bool true⟩]⟩

/-- A struct whose only usable column is read-only
(placeholder_test.go `test3`-style `Ww int sx:",readonly"`). -/
def onlyReadonly : StructVal :=
  ⟨"onlyReadonly", [⟨"Ww", ",readonly", true, .int 7⟩]⟩

/-! ## General lemmas about the matching engine -/

/-- Inversion of a successful `matchingOf` call: the matching is
built by `buildMatching` from the struct's fields, carries the
struct's type name, and is never empty. -/
theorem matchingOf_ok {sv : StructVal} {m : Matching}
    (hm : matchingOf (.ptrStruct sv) = .ok m) :
    m.name = sv.name ∧ m.columns = (buildMatching 0 sv.fields).1 ∧
    m.columnMap = (buildMatching 0 sv.fields).2 ∧ m.columns ≠ [] := by
  simp only [matchingOf] at hm
  split at hm
  · cases hm
  · next h =>
    obtain rfl := (Except.ok.injEq _ _).mp hm
    refine ⟨rfl, rfl, rfl, ?_⟩
    simpa [List.isEmpty_iff] using h

/-- A column list in which every column is read-only contributes no
assignment to `UpdateAllQuery`. -/
theorem updateAllCols_all_readonly (numbered : Bool) (p : Int) :
    ∀ cols : List Column, (∀ c ∈ cols, c.readonly = true) →
      updateAllCols numbered p cols = [] := by
  intro cols
  induction cols generalizing p with
  | nil => intro _; rfl
  | cons c rest ih =>
    intro h
    have hc : c.readonly = true := h c (by simp)
    simp [updateAllCols, hc, ih p (fun x hx => h x (by simp [hx]))]

/-- A column list in which every column is read-only has no
writeable column names. -/
theorem columnWriteableList_all_readonly :
    ∀ cols : List Column, (∀ c ∈ cols, c.readonly = true) →
      columnWriteableList cols = [] := by
  intro cols
  induction cols with
  | nil => intro _; rfl
  | cons c rest ih =>
    intro h
    have hc : c.readonly = true := h c (by simp)
    simp [columnWriteableList, hc, ih (fun x hx => h x (by simp [hx]))]

/-! ## Claim theorems -/

/-- C1: for the struct with fields `Platypus string; Rhinoceros
float64` and no annotations, `Columns` returns
`["platypus", "rhinoceros"]`, `SelectQuery "zoo"` returns exactly
`"SELECT platypus,rhinoceros FROM zoo"`, and `InsertQuery "zoo"`
returns exactly `"INSERT INTO zoo (platypus,rhinoceros) VALUES
(?,?)"` in non-numbered placeholder mode and `"INSERT INTO zoo
(platypus,rhinoceros) VALUES ($1,$2)"` in numbered mode. -/
theorem c1_menagerie0_queries :
    Columns (.ptrStruct menagerie0) = .ok ["platypus", "rhinoceros"] ∧
    SelectQuery "zoo" (.ptrStruct menagerie0) =
      .ok "SELECT platypus,rhinoceros FROM zoo" ∧
    InsertQuery false "zoo" (.ptrStruct menagerie0) =
      .ok "INSERT INTO zoo (platypus,rhinoceros) VALUES (?,?)" ∧
    InsertQuery true "zoo" (.ptrStruct menagerie0) =
      .ok "INSERT INTO zoo (platypus,rhinoceros) VALUES ($1,$2)" := by
  exact ⟨by decide, by decide, by decide, by decide⟩

/-- C10: on a struct type whose surviving columns are all read-only,
`UpdateAllQuery` does not fail and returns `"UPDATE <table> SET "`
with an empty assignment list (trailing space), while `InsertQuery`
aborts with the no-writeable-fields message naming the type. -/
theorem c10_all_readonly (numbered : Bool) (table : String) (sv : StructVal)
    (m : Matching) (hm : matchingOf (.ptrStruct sv) = .ok m)
    (hro : ∀ c ∈ m.columns, c.readonly = true) :
    UpdateAllQuery numbered table (.ptrStruct sv) =
      .ok ("UPDATE " ++ table ++ " SET ") ∧
    InsertQuery numbered table (.ptrStruct sv) =
      .error ("sx: struct " ++ sv.name ++ " has no writeable fields") := by
  obtain ⟨hname, _, _, _⟩ := matchingOf_ok hm
  have hnil : String.intercalate "," ([] : List String) = "" := rfl
  constructor
  · have h1 := updateAllCols_all_readonly numbered 1 m.columns hro
    simp [UpdateAllQuery, hm, Bind.bind, Except.bind, h1, hnil, Pure.pure, Except.pure]
  · have h2 := columnWriteableList_all_readonly m.columns hro
    simp [InsertQuery, hm, Bind.bind, Except.bind, h2, hname, Pure.pure, Except.pure]

/-- C10 witness: a struct whose single column is read-only. -/
theorem c10_all_readonly_witness :
    UpdateAllQuery true "t" (.ptrStruct onlyReadonly) = .ok "UPDATE t SET " ∧
    InsertQuery true "t" (.ptrStruct onlyReadonly) =
      .error "sx: struct onlyReadonly has no writeable fields" :=
  c10_all_readonly true "t" onlyReadonly
    ⟨"onlyReadonly", [⟨0, "ww", true⟩], [("Ww", ⟨0, "ww", true⟩)]⟩ (by decide) (by decide)

/-- C6: every operation that resolves a matching aborts with the
fixed message `"sx: expected a pointer to a struct"` when the
supplied value is not a (non-nil) pointer to a struct — including a
nil interface, a bare struct, a string, and a typed nil pointer —
and `matchingOf` aborts with `"sx: struct <T> has no usable fields"`
when filtering leaves zero usable fields; a successful `matchingOf`
never returns an empty matching. -/
theorem c6_matching_errors :
    (∀ (v : GoValue) (numbered : Bool) (table als field : String)
       (fields : List String), isPtrStruct v = false →
      matchingOf v = .error "sx: expected a pointer to a struct" ∧
      SelectQuery table v = .error "sx: expected a pointer to a struct" ∧
      SelectAliasQuery table als v = .error "sx: expected a pointer to a struct" ∧
      InsertQuery numbered table v = .error "sx: expected a pointer to a struct" ∧
      UpdateQuery numbered table v = .error "sx: expected a pointer to a struct" ∧
      UpdateAllQuery numbered table v = .error "sx: expected a pointer to a struct" ∧
      UpdateFieldsQuery numbered table v fields =
        .error "sx: expected a pointer to a struct" ∧
      Addrs v = .error "sx: expected a pointer to a struct" ∧
      Values v = .error "sx: expected a pointer to a struct" ∧
      Columns v = .error "sx: expected a pointer to a struct" ∧
      ColumnsWriteable v = .error "sx: expected a pointer to a struct" ∧
      ColumnOf v field = .error "sx: expected a pointer to a struct" ∧
      ValueOf v field = .error "sx: expected a pointer to a struct") ∧
    (∀ sv : StructVal, (buildMatching 0 sv.fields).1 = [] →
      matchingOf (.ptrStruct sv) =
        .error ("sx: struct " ++ sv.name ++ " has no usable fields")) ∧
    (∀ (v : GoValue) (m : Matching), matchingOf v = .ok m → m.columns ≠ []) := by
  refine ⟨?_, ?_, ?_⟩
  · intro v numbered table als field fields hshape
    have herr : matchingOf v = .error "sx: expected a pointer to a struct" := by
      cases v <;> simp_all [matchingOf, isPtrStruct]
    refine ⟨herr, ?_, ?_, ?_, ?_, ?_, ?_, ?_, ?_, ?_, ?_, ?_, ?_⟩ <;>
      simp [SelectQuery, SelectAliasQuery, InsertQuery, UpdateQuery,
        UpdateAllQuery, UpdateFieldsQuery, Addrs, Values, Columns,
        ColumnsWriteable, ColumnOf, ValueOf, herr, Bind.bind, Except.bind]
  · intro sv h
    simp [matchingOf, h]
  · intro v m hm
    cases v
    case ptrStruct sv => exact (matchingOf_ok hm).2.2.2
    all_goals simp [matchingOf] at hm

/-- C6 witness: a nil interface, a string, and an all-excluded
struct. -/
theorem c6_matching_errors_witness :
    matchingOf .nilV = .error "sx: expected a pointer to a struct" ∧
    UpdateQuery false "t" (.strV "hello") =
      .error "sx: expected a pointer to a struct" ∧
    matchingOf (.ptrStruct ⟨"test2", [⟨"A", "-", true, .int 0⟩]⟩) =
      .error "sx: struct test2 has no usable fields" :=
  ⟨(c6_matching_errors.1 .nilV false "t" "a" "f" [] (by decide)).1,
   (c6_matching_errors.1 (.strV "hello") false "t" "a" "f" []
      (by decide)).2.2.2.2.1,
   c6_matching_errors.2.1 ⟨"test2", [⟨"A", "-", true, .int 0⟩]⟩ (by decide)⟩

/-- The field-resolving loop fails exactly at the first unresolvable
requested name, with the message naming the matching's type and that
name. -/
theorem updateFieldsAux_err (numbered : Bool) (sv : StructVal) (m : Matching)
    (f : String) (hf : m.columnMap.lookup f = none) :
    ∀ (fs1 : List String) (p : Int) (fs2 : List String),
      (∀ g ∈ fs1, (m.columnMap.lookup g).isSome = true) →
      updateFieldsAux numbered sv m p (fs1 ++ f :: fs2) =
        .error ("struct " ++ m.name ++ " has no usable field " ++ f) := by
  intro fs1
  induction fs1 with
  | nil =>
    intro p fs2 _
    simp [updateFieldsAux, hf]
  | cons g gs ih =>
    intro p fs2 h
    obtain ⟨c, hc⟩ := Option.isSome_iff_exists.mp (h g (by simp))
    simp [updateFieldsAux, hc, ih (p + 1) fs2 (fun x hx => h x (by simp [hx])),
      Bind.bind, Except.bind]

/-- The field-resolving loop succeeds when every requested name is
resolvable. -/
theorem updateFieldsAux_ok (numbered : Bool) (sv : StructVal) (m : Matching) :
    ∀ (fs : List String) (p : Int),
      (∀ f ∈ fs, (m.columnMap.lookup f).isSome = true) →
      ∃ out, updateFieldsAux numbered sv m p fs = .ok out := by
  intro fs
  induction fs with
  | nil => exact fun p _ => ⟨([], []), rfl⟩
  | cons f rest ih =>
    intro p h
    obtain ⟨c, hc⟩ := Option.isSome_iff_exists.mp (h f (by simp))
    obtain ⟨out, hout⟩ := ih (p + 1) (fun x hx => h x (by simp [hx]))
    exact ⟨((c.name ++ "=" ++ (placeholderNext numbered p).1) :: out.1,
            fieldValue sv c.index :: out.2),
      by simp [updateFieldsAux, hc, hout, Bind.bind, Except.bind, Pure.pure, Except.pure]⟩

/-- C7: `UpdateFieldsQuery` aborts iff it is given zero field names
or some given name is unresolvable: with zero names it aborts with
exactly `"UpdateFieldsQuery requires at least one field"`; with an
unresolvable name (all earlier names resolvable) it aborts with the
message naming the struct type and that name; when every name is
resolvable (read-only fields included) it returns a result. -/
theorem c7_update_fields (numbered : Bool) (table : String) (sv : StructVal)
    (m : Matching) (fields : List String)
    (hm : matchingOf (.ptrStruct sv) = .ok m) :
    (fields = [] → UpdateFieldsQuery numbered table (.ptrStruct sv) fields =
      .error "UpdateFieldsQuery requires at least one field") ∧
    (∀ f fs1 fs2, fields = fs1 ++ f :: fs2 →
      (∀ g ∈ fs1, (m.columnMap.lookup g).isSome = true) →
      m.columnMap.lookup f = none →
      UpdateFieldsQuery numbered table (.ptrStruct sv) fields =
        .error ("struct " ++ sv.name ++ " has no usable field " ++ f)) ∧
    (fields ≠ [] → (∀ f ∈ fields, (m.columnMap.lookup f).isSome = true) →
      ∃ out, UpdateFieldsQuery numbered table (.ptrStruct sv) fields = .ok out) := by
  obtain ⟨hname, _, _, _⟩ := matchingOf_ok hm
  refine ⟨?_, ?_, ?_⟩
  · rintro rfl
    simp [UpdateFieldsQuery, hm, Bind.bind, Except.bind]
  · rintro f fs1 fs2 rfl hfs1 hf
    have hne : (fs1 ++ f :: fs2).isEmpty = false := by
      cases fs1 <;> simp
    have haux := updateFieldsAux_err numbered sv m f hf fs1 1 fs2 hfs1
    simp [UpdateFieldsQuery, hm, hne, haux, hname, structOf, Bind.bind, Except.bind]
  · intro hne hall
    have hne' : fields.isEmpty = false := by
      cases fields <;> simp_all
    obtain ⟨out, hout⟩ := updateFieldsAux_ok numbered sv m fields 1 hall
    exact ⟨("UPDATE " ++ table ++ " SET " ++ String.intercalate "," out.1, out.2),
      by simp [UpdateFieldsQuery, hm, hne', hout, structOf, Bind.bind, Except.bind,
        Pure.pure, Except.pure]⟩

/-- C7 witness: zero names, an unknown name, and a resolvable name on
the `menagerie0` struct. -/
theorem c7_update_fields_witness :
    UpdateFieldsQuery false "x" (.ptrStruct menagerie0) [] =
      .error "UpdateFieldsQuery requires at least one field" ∧
    UpdateFieldsQuery false "x" (.ptrStruct menagerie0) ["Research"] =
      .error "struct menagerie0 has no usable field Research" ∧
    ∃ out, UpdateFieldsQuery false "x" (.ptrStruct menagerie0) ["Rhinoceros"] =
      .ok out := by
  have hm : matchingOf (.ptrStruct menagerie0) =
      .ok ⟨"menagerie0",
        [⟨0, "platypus", false⟩, ⟨1, "rhinoceros", false⟩],
        [("Platypus", ⟨0, "platypus", false⟩),
         ("Rhinoceros", ⟨1, "rhinoceros", false⟩)]⟩ := by decide
  refine ⟨(c7_update_fields false "x" menagerie0 _ [] hm).1 rfl,
    (c7_update_fields false "x" menagerie0 _ ["Research"] hm).2.1
      "Research" [] [] rfl (by simp) (by decide),
    (c7_update_fields false "x" menagerie0 _ ["Rhinoceros"] hm).2.2
      (by simp) (by decide)⟩

/-- The `Values` loop is the field-value map over the writeable
columns. -/
theorem valuesAux_eq (sv : StructVal) :
    ∀ cols : List Column,
      valuesAux sv cols = (writeableCols cols).map (fun c => fieldValue sv c.index) := by
  intro cols
  induction cols with
  | nil => rfl
  | cons c rest ih =>
    by_cases h : c.readonly <;>
      simp [valuesAux, writeableCols, List.filter_cons, h, ih] at ih ⊢

/-- C8: `Addrs` returns exactly one field address per column of the
matching, in matching order, read-only columns included; `Values`
returns exactly one value per writeable column, in matching order,
omitting read-only columns entirely and never skipping a writeable
column for holding a zero value. -/
theorem c8_addrs_values (sv : StructVal) (m : Matching)
    (hm : matchingOf (.ptrStruct sv) = .ok m) :
    Addrs (.ptrStruct sv) = .ok (m.columns.map (fun c => Addr.fieldAddr c.index)) ∧
    (m.columns.map (fun c => Addr.fieldAddr c.index)).length = m.columns.length ∧
    (∀ (i : Nat) (c : Column), m.columns[i]? = some c →
      (m.columns.map (fun c => Addr.fieldAddr c.index))[i]? =
        some (.fieldAddr c.index)) ∧
    Values (.ptrStruct sv) =
      .ok ((writeableCols m.columns).map (fun c => fieldValue sv c.index)) ∧
    ((writeableCols m.columns).map (fun c => fieldValue sv c.index)).length =
      (writeableCols m.columns).length ∧
    (∀ c ∈ m.columns, c.readonly = false →
      fieldValue sv c.index ∈
        (writeableCols m.columns).map (fun c => fieldValue sv c.index)) := by
  refine ⟨?_, by simp, ?_, ?_, by simp, ?_⟩
  · simp [Addrs, hm, Bind.bind, Except.bind, Pure.pure, Except.pure]
  · intro i c h
    simp [List.getElem?_map, h]
  · simp [Values, hm, valuesAux_eq, structOf, Bind.bind, Except.bind,
      Pure.pure, Except.pure]
  · intro c hc hro
    exact List.mem_map_of_mem _ (List.mem_filter.mpr ⟨hc, by simp [hro]⟩)

/-- C8 witness: the menagerie2-shaped struct, whose `Bee` column is
read-only and whose zero-valued writeable fields still appear in
`Values`. -/
theorem c8_addrs_values_witness :
    Addrs (.ptrStruct (menagerie2 (.str "abc") .nilPtr (.int 0))) =
      .ok [.fieldAddr 0, .fieldAddr 1, .fieldAddr 2, .fieldAddr 4] ∧
    Values (.ptrStruct (menagerie2 (.str "abc") .nilPtr (.int 0))) =
      .ok [.str "abc", .nilPtr, .int 0] := by
  have hm : matchingOf (.ptrStruct (menagerie2 (.str "abc") .nilPtr (.int 0))) =
      .ok ⟨"menagerie2",
        [⟨0, "cougar", false⟩, ⟨1, "cat", false⟩, ⟨2, "grizzly", false⟩,
         ⟨4, "bee", true⟩],
        [("Cougar", ⟨0, "cougar", false⟩), ("Cheetah", ⟨1, "cat", false⟩),
         ("Grizzly", ⟨2, "grizzly", false⟩), ("Bee", ⟨4, "bee", true⟩)]⟩ := by
    decide
  have h := c8_addrs_values (menagerie2 (.str "abc") .nilPtr (.int 0)) _ hm
  exact ⟨h.1.trans (by decide), h.2.2.2.1.trans (by decide)⟩

/-- The `UpdateQuery` loop is determined by the selected (writeable,
non-zero) columns: the assignment strings are the placeholder-indexed
names, the value list the dereferenced field values, in matching
order. -/
theorem updateCols_eq (numbered : Bool) (sv : StructVal) :
    ∀ (cols : List Column) (p : Int),
      updateCols numbered sv p cols =
        (phNames numbered p (selCols sv cols),
         (selCols sv cols).map (fun c => derefPtr (fieldValue sv c.index))) := by
  intro cols
  induction cols with
  | nil => intro _; rfl
  | cons c rest ih =>
    intro p
    by_cases hro : c.readonly
    · simp [updateCols, selCols, List.filter_cons, hro, ih p]
    · by_cases hz : valueIsZero (fieldValue sv c.index)
      · simp [updateCols, selCols, List.filter_cons, hro, hz, ih p]
      · simp [updateCols, selCols, List.filter_cons, hro, hz, ih (p + 1), phNames]

/-- The `UpdateAllQuery` loop is `phNames` over the writeable
columns. -/
theorem updateAllCols_eq (numbered : Bool) :
    ∀ (cols : List Column) (p : Int),
      updateAllCols numbered p cols = phNames numbered p (writeableCols cols) := by
  intro cols
  induction cols with
  | nil => intro _; rfl
  | cons c rest ih =>
    intro p
    by_cases hro : c.readonly <;>
      simp [updateAllCols, writeableCols, List.filter_cons, hro, ih, phNames]

/-- `phNames` yields the empty list only on the empty column list. -/
theorem phNames_eq_nil_iff (numbered : Bool) (p : Int) (l : List Column) :
    phNames numbered p l = [] ↔ l = [] := by
  cases l <;> simp [phNames]

/-- Full characterization of `UpdateQuery` on a valid struct: empty
statement and empty value list when no writeable column holds a
non-zero value, otherwise the SET clause and dereferenced values of
exactly the selected columns. -/
theorem UpdateQuery_eq (numbered : Bool) (table : String) (sv : StructVal)
    (m : Matching) (hm : matchingOf (.ptrStruct sv) = .ok m) :
    UpdateQuery numbered table (.ptrStruct sv) =
      .ok (if (selCols sv m.columns).isEmpty then ("", [])
        else ("UPDATE " ++ table ++ " SET "
                ++ String.intercalate "," (phNames numbered 1 (selCols sv m.columns)),
              (selCols sv m.columns).map (fun c => derefPtr (fieldValue sv c.index)))) := by
  cases hsel : selCols sv m.columns with
  | nil =>
    simp [UpdateQuery, hm, structOf, updateCols_eq, hsel, phNames,
      Bind.bind, Except.bind, Pure.pure, Except.pure]
  | cons c rest =>
    simp [UpdateQuery, hm, structOf, updateCols_eq, hsel, phNames,
      Bind.bind, Except.bind, Pure.pure, Except.pure]

/-- C3: `UpdateQuery` returns the empty string and empty value list
when every writeable field holds its zero value; with exactly one
selected (writeable, non-zero) column it returns a SET clause naming
exactly that column (placeholder number 2) and the one-element value
list holding that field's value; and a writeable field at its zero
value is never among the selected columns that determine the output. -/
theorem c3_update_zero_values (numbered : Bool) (table : String)
    (sv : StructVal) (m : Matching)
    (hm : matchingOf (.ptrStruct sv) = .ok m) :
    ((∀ c ∈ m.columns, c.readonly = false →
        valueIsZero (fieldValue sv c.index) = true) →
      UpdateQuery numbered table (.ptrStruct sv) = .ok ("", [])) ∧
    (∀ cstar, selCols sv m.columns = [cstar] →
      UpdateQuery numbered table (.ptrStruct sv) =
        .ok ("UPDATE " ++ table ++ " SET " ++ cstar.name ++ "="
               ++ placeholderString numbered 2,
             [derefPtr (fieldValue sv cstar.index)])) ∧
    (∀ c ∈ m.columns, valueIsZero (fieldValue sv c.index) = true →
      c ∉ selCols sv m.columns) := by
  refine ⟨?_, ?_, ?_⟩
  · intro hall
    have hsel : selCols sv m.columns = [] := by
      refine List.filter_eq_nil_iff.mpr (fun c hc => ?_)
      by_cases hro : c.readonly <;> simp [hro, hall c hc]
    have h := UpdateQuery_eq numbered table sv m hm
    rwa [hsel] at h
  · intro cstar hsel
    have h := UpdateQuery_eq numbered table sv m hm
    rw [hsel] at h
    have hph : phNames numbered 1 [cstar] =
        [cstar.name ++ "=" ++ placeholderString numbered 2] := rfl
    simpa [hph, String.intercalate, String.intercalate.go, String.append_assoc] using h
  · intro c _ hz hmem
    simp [selCols, List.mem_filter, hz] at hmem

/-- C3 witness: the all-zero menagerie2 instance, then the same
struct with only `Cougar` non-zero. -/
theorem c3_update_zero_values_witness :
    UpdateQuery true "africa" (.ptrStruct (menagerie2 (.str "") .nilPtr (.int 0))) =
      .ok ("", []) ∧
    UpdateQuery true "asia" (.ptrStruct (menagerie2 (.str "roar") .nilPtr (.int 0))) =
      .ok ("UPDATE asia SET cougar=$2", [.str "roar"]) := by
  have hm0 : matchingOf (.ptrStruct (menagerie2 (.str "") .nilPtr (.int 0))) =
      .ok ⟨"menagerie2",
        [⟨0, "cougar", false⟩, ⟨1, "cat", false⟩, ⟨2, "grizzly", false⟩,
         ⟨4, "bee", true⟩],
        [("Cougar", ⟨0, "cougar", false⟩), ("Cheetah", ⟨1, "cat", false⟩),
         ("Grizzly", ⟨2, "grizzly", false⟩), ("Bee", ⟨4, "bee", true⟩)]⟩ := by
    decide
  have hm1 : matchingOf (.ptrStruct (menagerie2 (.str "roar") .nilPtr (.int 0))) =
      .ok ⟨"menagerie2",
        [⟨0, "cougar", false⟩, ⟨1, "cat", false⟩, ⟨2, "grizzly", false⟩,
         ⟨4, "bee", true⟩],
        [("Cougar", ⟨0, "cougar", false⟩), ("Cheetah", ⟨1, "cat", false⟩),
         ("Grizzly", ⟨2, "grizzly", false⟩), ("Bee", ⟨4, "bee", true⟩)]⟩ := by
    decide
  constructor
  · exact (c3_update_zero_values true "africa" _ _ hm0).1 (by decide)
  · exact ((c3_update_zero_values true "asia" _ _ hm1).2.1
      ⟨0, "cougar", false⟩ (by decide)).trans (by decide)

/-- C4: a writeable pointer-typed field is skipped by `UpdateQuery`
iff the pointer is nil; a non-nil pointer (even to a zero value)
keeps its column selected, and the bound value emitted at that
column's position is the pointed-to value, not the pointer. -/
theorem c4_pointer_fields (numbered : Bool) (table : String) (sv : StructVal)
    (m : Matching) (c : Column) (hm : matchingOf (.ptrStruct sv) = .ok m)
    (hc : c ∈ m.columns) (hro : c.readonly = false) :
    (fieldValue sv c.index = .nilPtr → c ∉ selCols sv m.columns) ∧
    (∀ v, fieldValue sv c.index = .ptrTo v →
      c ∈ selCols sv m.columns ∧
      ∃ i : Nat, (selCols sv m.columns)[i]? = some c ∧
        ((selCols sv m.columns).map
          (fun x => derefPtr (fieldValue sv x.index)))[i]? = some v ∧
        UpdateQuery numbered table (.ptrStruct sv) =
          .ok ("UPDATE " ++ table ++ " SET "
                 ++ String.intercalate "," (phNames numbered 1 (selCols sv m.columns)),
               (selCols sv m.columns).map
                 (fun x => derefPtr (fieldValue sv x.index)))) := by
  constructor
  · intro hnil hmem
    simp [selCols, List.mem_filter, hnil, valueIsZero] at hmem
  · intro v hv
    have hmem : c ∈ selCols sv m.columns :=
      List.mem_filter.mpr ⟨hc, by simp [hro, hv, valueIsZero]⟩
    refine ⟨hmem, ?_⟩
    obtain ⟨n, hn⟩ := List.mem_iff_get.mp hmem
    refine ⟨n, by simp [List.getElem?_eq_getElem, ← List.get_eq_getElem, hn], ?_, ?_⟩
    · simp [List.getElem?_map, List.getElem?_eq_getElem, ← List.get_eq_getElem, hn,
        hv, derefPtr]
    · have h := UpdateQuery_eq numbered table sv m hm
      have hne : (selCols sv m.columns).isEmpty = false := by
        cases hsel : selCols sv m.columns with
        | nil => rw [hsel] at hmem; cases hmem
        | cons a l => simp
      rwa [hne] at h

/-- C4 witness: menagerie2 with the pointer field `Cheetah` nil, then
pointing at the zero-valued string. -/
theorem c4_pointer_fields_witness :
    (⟨1, "cat", false⟩ : Column) ∉
      selCols (menagerie2 (.str "") .nilPtr (.int 0))
        [⟨0, "cougar", false⟩, ⟨1, "cat", false⟩, ⟨2, "grizzly", false⟩,
         ⟨4, "bee", true⟩] ∧
    UpdateQuery true "siberia"
        (.ptrStruct (menagerie2 (.str "") (.ptrTo (.str "")) (.int 0))) =
      .ok ("UPDATE siberia SET cat=$2", [.str ""]) := by
  have hm0 : matchingOf (.ptrStruct (menagerie2 (.str "") .nilPtr (.int 0))) =
      .ok ⟨"menagerie2",
        [⟨0, "cougar", false⟩, ⟨1, "cat", false⟩, ⟨2, "grizzly", false⟩,
         ⟨4, "bee", true⟩],
        [("Cougar", ⟨0, "cougar", false⟩), ("Cheetah", ⟨1, "cat", false⟩),
         ("Grizzly", ⟨2, "grizzly", false⟩), ("Bee", ⟨4, "bee", true⟩)]⟩ := by
    decide
  have hm1 : matchingOf (.ptrStruct (menagerie2 (.str "") (.ptrTo (.str "")) (.int 0))) =
      .ok ⟨"menagerie2",
        [⟨0, "cougar", false⟩, ⟨1, "cat", false⟩, ⟨2, "grizzly", false⟩,
         ⟨4, "bee", true⟩],
        [("Cougar", ⟨0, "cougar", false⟩), ("Cheetah", ⟨1, "cat", false⟩),
         ("Grizzly", ⟨2, "grizzly", false⟩), ("Bee", ⟨4, "bee", true⟩)]⟩ := by
    decide
  constructor
  · exact (c4_pointer_fields true "siberia" _ _ ⟨1, "cat", false⟩ hm0
      (by decide) rfl).1 (by decide)
  · obtain ⟨_, _, _, _, hq⟩ := (c4_pointer_fields true "siberia" _ _
      ⟨1, "cat", false⟩ hm1 (by decide) rfl).2 (.str "") (by decide)
    exact hq.trans (by decide)

/-- Position `i` of `phNames` carries placeholder number `p + 1 + i`:
the counter is pre-incremented once per emitted assignment. -/
theorem phNames_getElem (numbered : Bool) :
    ∀ (l : List Column) (p : Int) (i : Nat) (c : Column), l[i]? = some c →
      (phNames numbered p l)[i]? =
        some (c.name ++ "=" ++ placeholderString numbered (p + 1 + i)) := by
  intro l
  induction l with
  | nil => intro p i c h; simp at h
  | cons a rest ih =>
    intro p i c h
    cases i with
    | zero =>
      simp at h
      simp [phNames, placeholderNext, h]
    | succ i =>
      simp at h
      have := ih (p + 1) i c h
      simpa [phNames, add_assoc, add_comm, add_left_comm] using this

/-- A successful `updateFieldsAux` run produces assignments that are
`phNames` of the resolved columns and values that are their raw field
values. -/
theorem updateFieldsAux_phNames (numbered : Bool) (sv : StructVal) (m : Matching) :
    ∀ (fs : List String) (p : Int) (out : List String × List Value),
      updateFieldsAux numbered sv m p fs = .ok out →
      ∃ rcols : List Column, out.1 = phNames numbered p rcols ∧
        out.2 = rcols.map (fun c => fieldValue sv c.index) ∧
        rcols.length = fs.length := by
  intro fs
  induction fs with
  | nil =>
    intro p out h
    simp [updateFieldsAux] at h
    exact ⟨[], by simp [← h, phNames]⟩
  | cons f rest ih =>
    intro p out h
    cases hc : m.columnMap.lookup f with
    | none => simp [updateFieldsAux, hc] at h
    | some c =>
      cases haux : updateFieldsAux numbered sv m (p + 1) rest with
      | error e => simp [updateFieldsAux, hc, haux, Bind.bind, Except.bind] at h
      | ok out' =>
        obtain ⟨rcols, h1, h2, h3⟩ := ih (p + 1) out' haux
        simp [updateFieldsAux, hc, haux, Bind.bind, Except.bind,
          Pure.pure, Except.pure] at h
        exact ⟨c :: rcols,
          by simp [← h, phNames, h1],
          by simp [← h, h2],
          by simp [h3]⟩

/-- C5: `Placeholder.Next` pre-increments (a zero-valued placeholder
yields `"$1"` on its first call in numbered mode); in non-numbered
mode every marker is the literal `"?"`; and each Update-family
builder seeds the counter at 1, so its assignment at position `i`
carries placeholder `$(i+2)` in numbered mode — in particular the
first emitted placeholder is `$2`, reserving `$1`. -/
theorem c5_placeholder_numbering :
    (∀ p : Int, placeholderNext true p = ("$" ++ toString (p + 1), p + 1)) ∧
    (∀ p : Int, placeholderNext false p = ("?", p + 1)) ∧
    placeholderNext true 0 = ("$1", 1) ∧
    placeholderString true 2 = "$2" ∧
    (∀ (l : List Column) (i : Nat) (c : Column), l[i]? = some c →
      (phNames true 1 l)[i]? =
        some (c.name ++ "=" ++ placeholderString true (2 + i)) ∧
      (phNames false 1 l)[i]? = some (c.name ++ "=?")) ∧
    (∀ (numbered : Bool) (sv : StructVal) (p : Int) (cols : List Column),
      (updateCols numbered sv p cols).1 = phNames numbered p (selCols sv cols)) ∧
    (∀ (numbered : Bool) (p : Int) (cols : List Column),
      updateAllCols numbered p cols = phNames numbered p (writeableCols cols)) ∧
    (∀ (numbered : Bool) (sv : StructVal) (m : Matching) (fs : List String)
       (out : List String × List Value),
      updateFieldsAux numbered sv m 1 fs = .ok out →
      ∃ rcols : List Column, out.1 = phNames numbered 1 rcols ∧
        rcols.length = fs.length) ∧
    (∀ (numbered : Bool) (table : String) (sv : StructVal) (m : Matching),
      matchingOf (.ptrStruct sv) = .ok m →
      UpdateAllQuery numbered table (.ptrStruct sv) =
        .ok ("UPDATE " ++ table ++ " SET "
          ++ String.intercalate "," (phNames numbered 1 (writeableCols m.columns)))) := by
  refine ⟨fun p => rfl, fun p => rfl, rfl, rfl, ?_, ?_, ?_, ?_, ?_⟩
  · intro l i c h
    constructor
    · have := phNames_getElem true l 1 i c h
      simpa [add_comm, add_left_comm, add_assoc] using this
    · have := phNames_getElem false l 1 i c h
      have hlit : "=" ++ "?" = "=?" := rfl
      simpa [placeholderString, String.append_assoc, hlit] using this
  · intro numbered sv p cols
    simp [updateCols_eq]
  · intro numbered p cols
    simp [updateAllCols_eq]
  · intro numbered sv m fs out h
    obtain ⟨rcols, h1, _, h3⟩ := updateFieldsAux_phNames numbered sv m fs 1 out h
    exact ⟨rcols, h1, h3⟩
  · intro numbered table sv m hm
    simp [UpdateAllQuery, hm, updateAllCols_eq, Bind.bind, Except.bind,
      Pure.pure, Except.pure]

/-- C5 witness: concrete instantiations of every quantified
conjunct. -/
theorem c5_placeholder_numbering_witness :
    placeholderNext true 5 = ("$6", 6) ∧
    placeholderNext false 5 = ("?", 6) ∧
    (phNames true 1 [⟨0, "a", false⟩, ⟨1, "b", false⟩])[1]? = some "b=$3" ∧
    (phNames false 1 [⟨0, "a", false⟩, ⟨1, "b", false⟩])[1]? = some "b=?" ∧
    UpdateAllQuery true "zoo" (.ptrStruct menagerie0) =
      .ok "UPDATE zoo SET platypus=$2,rhinoceros=$3" := by
  have hm : matchingOf (.ptrStruct menagerie0) =
      .ok ⟨"menagerie0",
        [⟨0, "platypus", false⟩, ⟨1, "rhinoceros", false⟩],
        [("Platypus", ⟨0, "platypus", false⟩),
         ("Rhinoceros", ⟨1, "rhinoceros", false⟩)]⟩ := by decide
  have h5 := c5_placeholder_numbering.2.2.2.2.1
    [⟨0, "a", false⟩, ⟨1, "b", false⟩] 1 ⟨1, "b", false⟩ (by decide)
  refine ⟨c5_placeholder_numbering.1 5, c5_placeholder_numbering.2.1 5,
    h5.1.trans (by decide), h5.2.trans (by decide),
    (c5_placeholder_numbering.2.2.2.2.2.2.2.2 true "zoo" menagerie0 _ hm).trans
      (by decide)⟩

/-- A field skipped by the scan (annotated `-` or unexported)
contributes nothing. -/
theorem buildMatching_cons_skip (i : Nat) (g : Field) (rest : List Field)
    (h : (splitTag g.tag).headD "" = "-" ∨ g.exported = false) :
    buildMatching i (g :: rest) = buildMatching (i + 1) rest := by
  rw [List.headD_eq_head?_getD] at h
  rcases h with h | h <;> simp [buildMatching, h]

/-- A surviving field contributes its `colOf` descriptor at the front
of both the column list and the lookup. -/
theorem buildMatching_cons_keep (i : Nat) (g : Field) (rest : List Field)
    (h1 : (splitTag g.tag).headD "" ≠ "-") (h2 : g.exported = true) :
    buildMatching i (g :: rest) =
      (colOf i g :: (buildMatching (i + 1) rest).1,
       (g.name, colOf i g) :: (buildMatching (i + 1) rest).2) := by
  rw [List.headD_eq_head?_getD] at h1
  simp [buildMatching, h1, h2]

/-- An exported field not annotated `-` yields exactly one column, at
its declaration position, with the resolved name and read-only flag. -/
theorem buildMatching_exists :
    ∀ (flds : List Field) (i j : Nat) (f : Field), flds[j]? = some f →
      f.exported = true → (splitTag f.tag).headD "" ≠ "-" →
      ∃ c : Column, c ∈ (buildMatching i flds).1 ∧ c.index = i + j ∧
        c.readonly = ((splitTag f.tag).drop 1).contains "readonly" ∧
        c.name = (if (splitTag f.tag).headD "" = "" then snakeCase f.name
                  else (splitTag f.tag).headD "") := by
  intro flds
  induction flds with
  | nil => intro i j f h; simp at h
  | cons g rest ih =>
    intro i j f h hexp hdash
    cases j with
    | zero =>
      obtain rfl : g = f := by simpa using h
      rw [buildMatching_cons_keep i g rest hdash hexp]
      exact ⟨colOf i g, by simp, by simp [colOf], by simp [colOf], by simp [colOf]⟩
    | succ j =>
      simp only [List.getElem?_cons_succ] at h
      obtain ⟨c, hc, hidx, hro, hname⟩ := ih (i + 1) j f h hexp hdash
      refine ⟨c, ?_, by omega, hro, hname⟩
      by_cases hskip : (splitTag g.tag).headD "" = "-" ∨ g.exported = false
      · rw [buildMatching_cons_skip i g rest hskip]; exact hc
      · push_neg at hskip
        rw [buildMatching_cons_keep i g rest hskip.1 (by simpa using hskip.2)]
        exact List.mem_cons_of_mem _ hc

/-- Every column of the matching originates from an exported field
not annotated `-`, at the column's index. -/
theorem buildMatching_source :
    ∀ (flds : List Field) (i : Nat) (c : Column), c ∈ (buildMatching i flds).1 →
      ∃ (j : Nat) (f : Field), flds[j]? = some f ∧ c.index = i + j ∧
        f.exported = true ∧ (splitTag f.tag).headD "" ≠ "-" := by
  intro flds
  induction flds with
  | nil => intro i c h; simp [buildMatching] at h
  | cons g rest ih =>
    intro i c h
    by_cases hskip : (splitTag g.tag).headD "" = "-" ∨ g.exported = false
    · rw [buildMatching_cons_skip i g rest hskip] at h
      obtain ⟨j, f, hj, hidx, hexp, hd⟩ := ih (i + 1) c h
      exact ⟨j + 1, f, by simpa using hj, by omega, hexp, hd⟩
    · push_neg at hskip
      have hexp : g.exported = true := by simpa using hskip.2
      rw [buildMatching_cons_keep i g rest hskip.1 hexp] at h
      rcases List.mem_cons.mp h with rfl | h
      · exact ⟨0, g, by simp, by simp [colOf], hexp, hskip.1⟩
      · obtain ⟨j, f, hj, hidx, hexp', hd⟩ := ih (i + 1) c h
        exact ⟨j + 1, f, by simpa using hj, by omega, hexp', hd⟩

/-- The writeable column names are the names of the writeable
columns. -/
theorem columnWriteableList_eq :
    ∀ cols : List Column,
      columnWriteableList cols = (writeableCols cols).map Column.name := by
  intro cols
  induction cols with
  | nil => rfl
  | cons c rest ih =>
    by_cases h : c.readonly <;>
      simp [columnWriteableList, writeableCols, List.filter_cons, h, ih] at ih ⊢

/-- C2: for a struct type with a read-only-annotated field and a
`-`-annotated field, the `-` field yields no column at all (hence
appears in no statement), while the read-only field's column is in
the matching — so in the SELECT list — but not among the writeable
columns that `InsertQuery` (via `columnWriteableList`) and
`UpdateAllQuery` (via `phNames` over the writeable columns) emit. -/
theorem c2_readonly_and_excluded (sv : StructVal) (m : Matching) (j : Nat)
    (f : Field) (hm : matchingOf (.ptrStruct sv) = .ok m)
    (hf : sv.fields[j]? = some f) :
    (((splitTag f.tag).headD "" = "-" ∨ f.exported = false) →
      ∀ c ∈ m.columns, c.index ≠ j) ∧
    (f.exported = true → (splitTag f.tag).headD "" ≠ "-" →
     ((splitTag f.tag).drop 1).contains "readonly" = true →
      ∃ c : Column, c ∈ m.columns ∧ c.index = j ∧ c.readonly = true ∧
        c.name ∈ columnList m ∧ c ∉ writeableCols m.columns) ∧
    (∀ (numbered : Bool) (table : String),
      SelectQuery table (.ptrStruct sv) =
        .ok ("SELECT" ++ writeList ' ' (columnList m) ++ " FROM " ++ table) ∧
      columnWriteableList m.columns = (writeableCols m.columns).map Column.name ∧
      UpdateAllQuery numbered table (.ptrStruct sv) =
        .ok ("UPDATE " ++ table ++ " SET "
          ++ String.intercalate "," (phNames numbered 1 (writeableCols m.columns))) ∧
      (columnWriteableList m.columns ≠ [] →
        InsertQuery numbered table (.ptrStruct sv) =
          .ok ("INSERT INTO " ++ table ++ " "
            ++ writeList '(' (columnWriteableList m.columns) ++ ") VALUES "
            ++ writeList '(' (phLoop numbered 0 (columnWriteableList m.columns).length)
            ++ ")"))) := by
  obtain ⟨hname, hcols, hmap, hnil⟩ := matchingOf_ok hm
  refine ⟨?_, ?_, ?_⟩
  · intro hskip c hc hidx
    rw [hcols] at hc
    obtain ⟨j', f', hj', hidx', hexp', hdash'⟩ := buildMatching_source sv.fields 0 c hc
    have hjj : j' = j := by omega
    subst hjj
    rw [hf] at hj'
    obtain rfl := Option.some.injEq _ _ |>.mp hj'
    rcases hskip with h1 | h1
    · exact hdash' h1
    · rw [hexp'] at h1; cases h1
  · intro hexp hdash hro
    obtain ⟨c, hc, hidx, hrons, _⟩ :=
      buildMatching_exists sv.fields 0 j f hf hexp hdash
    rw [← hcols] at hc
    refine ⟨c, hc, by omega, by rw [hrons, hro], ?_, ?_⟩
    · exact List.mem_map_of_mem _ hc
    · intro hmem
      have := (List.mem_filter.mp hmem).2
      rw [hrons, hro] at this
      simp at this
  · intro numbered table
    refine ⟨?_, columnWriteableList_eq m.columns, ?_, ?_⟩
    · simp [SelectQuery, hm, Bind.bind, Except.bind, Pure.pure, Except.pure]
    · simp [UpdateAllQuery, hm, updateAllCols_eq, Bind.bind, Except.bind,
        Pure.pure, Except.pure]
    · intro hne
      have hne' : (columnWriteableList m.columns).isEmpty = false := by
        cases h : columnWriteableList m.columns with
        | nil => exact absurd h hne
        | cons a l => simp
      simp [InsertQuery, hm, hne', Bind.bind, Except.bind, Pure.pure, Except.pure]

/-- C2 witness: menagerie2's `Ant` field (annotated `-`, position 3)
and `Bee` field (annotated read-only, position 4). -/
theorem c2_readonly_and_excluded_witness :
    ((⟨0, "cougar", false⟩ : Column).index ≠ 3) ∧
    (∃ c : Column,
      c ∈ [⟨0, "cougar", false⟩, ⟨1, "cat", false⟩, ⟨2, "grizzly", false⟩,
           (⟨4, "bee", true⟩ : Column)] ∧
      c.index = 4 ∧ c.readonly = true ∧
      c.name ∈ ["cougar", "cat", "grizzly", "bee"] ∧
      c ∉ writeableCols
        [⟨0, "cougar", false⟩, ⟨1, "cat", false⟩, ⟨2, "grizzly", false⟩,
         ⟨4, "bee", true⟩]) ∧
    UpdateAllQuery true "berlin" (.ptrStruct (menagerie2 (.str "") .nilPtr (.int 0))) =
      .ok "UPDATE berlin SET cougar=$2,cat=$3,grizzly=$4" := by
  have hm : matchingOf (.ptrStruct (menagerie2 (.str "") .nilPtr (.int 0))) =
      .ok ⟨"menagerie2",
        [⟨0, "cougar", false⟩, ⟨1, "cat", false⟩, ⟨2, "grizzly", false⟩,
         ⟨4, "bee", true⟩],
        [("Cougar", ⟨0, "cougar", false⟩), ("Cheetah", ⟨1, "cat", false⟩),
         ("Grizzly", ⟨2, "grizzly", false⟩), ("Bee", ⟨4, "bee", true⟩)]⟩ := by
    decide
  refine ⟨?_, ?_, ?_⟩
  · exact (c2_readonly_and_excluded (menagerie2 (.str "") .nilPtr (.int 0)) _ 3
      ⟨"Ant", "-", true, .bool true⟩ hm (by decide)).1 (Or.inl (by decide))
      ⟨0, "cougar", false⟩ (by decide)
  · exact (c2_readonly_and_excluded (menagerie2 (.str "") .nilPtr (.int 0)) _ 4
      ⟨"Bee", ",readonly", true, .bool true⟩ hm (by decide)).2.1
      (by decide) (by decide) (by decide)
  · exact (((c2_readonly_and_excluded (menagerie2 (.str "") .nilPtr (.int 0)) _ 4
      ⟨"Bee", ",readonly", true, .bool true⟩ hm (by decide)).2.2
      true "berlin").2.2.1).trans (by decide)

/-! ## Lemmas for the snake-case deriver -/

/-- `Char.ofNat` round-trips on valid (basic-plane) code points. -/
theorem char_toNat_ofNat (n : Nat) (h : n < 55296) : (Char.ofNat n).toNat = n := by
  unfold Char.ofNat
  rw [dif_pos (Or.inl h)]
  simp [Char.ofNatAux, Char.toNat, UInt32.toNat, BitVec.toNat_ofNatLt]

/-- An uppercase letter is not lowercase. -/
theorem isLow_of_isUp (c : Char) (h : isUp c = true) : isLow c = false := by
  simp [isUp] at h
  simp [isLow]
  omega

/-- An uppercase letter is not a digit. -/
theorem isDig_of_isUp (c : Char) (h : isUp c = true) : isDig c = false := by
  simp [isUp] at h
  simp [isDig]
  omega

/-- A lowercase letter is not uppercase. -/
theorem isUp_of_isLow (c : Char) (h : isLow c = true) : isUp c = false := by
  simp [isLow] at h
  simp [isUp]
  omega

/-- Lowercasing never yields an uppercase letter. -/
theorem isUp_lowerChar (c : Char) : isUp (lowerChar c) = false := by
  unfold lowerChar
  by_cases h : isUp c
  · rw [if_pos h]
    have h' : 65 ≤ c.toNat ∧ c.toNat ≤ 90 := by simpa [isUp] using h
    have hv : c.toNat + 32 < 55296 := by omega
    simp [isUp, char_toNat_ofNat _ hv]
    omega
  · rw [if_neg h]
    simpa using h

/-- Lowercasing fixes characters that are not uppercase. -/
theorem lowerChar_of_not_up (c : Char) (h : isUp c = false) : lowerChar c = c := by
  unfold lowerChar
  rw [if_neg (by simp [h])]

/-- Lowercasing an alphanumeric character never yields an
underscore. -/
theorem lowerChar_ne_underscore (c : Char) (h : isAlnum c = true) :
    lowerChar c ≠ '_' := by
  unfold lowerChar
  by_cases hU : isUp c = true
  · rw [if_pos hU]
    intro he
    have h' : 65 ≤ c.toNat ∧ c.toNat ≤ 90 := by simpa [isUp] using hU
    have hv : c.toNat + 32 < 55296 := by omega
    have := congrArg Char.toNat he
    rw [char_toNat_ofNat _ hv] at this
    have h95 : ('_').toNat = 95 := by decide
    omega
  · rw [if_neg hU]
    intro he
    subst he
    rw [show isUp '_' = false from by decide] at hU
    simp [isAlnum, show isUp '_' = false from by decide,
      show isLow '_' = false from by decide,
      show isDig '_' = false from by decide] at h

/-- Dropping the lowercase run leaves a list that does not start with
a lowercase letter. -/
theorem headIsLow_dropWhile (l : List Char) :
    headIsLow (l.dropWhile isLow) = false := by
  induction l with
  | nil => rfl
  | cons c rest ih =>
    rw [List.dropWhile_cons]
    split
    · exact ih
    · next h => simpa [headIsLow] using h

/-- Dropping a prefix never lengthens a list. -/
theorem length_dropWhile_le (p : Char → Bool) :
    ∀ l : List Char, (l.dropWhile p).length ≤ l.length := by
  intro l
  induction l with
  | nil => simp
  | cons c rest ih =>
    rw [List.dropWhile_cons]
    split
    · exact le_trans ih (by simp)
    · simp

/-- The `matchWord` scan does not depend on the fuel, as long as the
fuel covers the list length. -/
theorem replWordF_fuel :
    ∀ (f1 : Nat) (l : List Char) (f2 : Nat), l.length ≤ f1 → l.length ≤ f2 →
      replWordF f1 l = replWordF f2 l := by
  intro f1
  induction f1 with
  | zero =>
    intro l f2 h1 _
    have : l = [] := List.eq_nil_of_length_eq_zero (Nat.le_zero.mp h1)
    subst this
    cases f2 <;> rfl
  | succ f ih =>
    intro l f2 h1 h2
    cases l with
    | nil => cases f2 <;> rfl
    | cons c l2 =>
      cases l2 with
      | nil => cases f2 <;> rfl
      | cons d rest =>
        have hlen : rest.length + 2 ≤ f + 1 := by simpa using h1
        cases f2 with
        | zero => simp at h2
        | succ f2 =>
          have hlen2 : rest.length + 2 ≤ f2 + 1 := by simpa using h2
          simp only [replWordF]
          split
          · rw [ih (rest.dropWhile isLow) f2
              (le_trans (length_dropWhile_le isLow rest) (by omega))
              (le_trans (length_dropWhile_le isLow rest) (by omega))]
          · rw [ih (d :: rest) f2 (by simp; omega) (by simp; omega)]

/-- Unfolding equation of the `matchWord` pass on a list of length at
least two. -/
theorem replWord_cons2 (c d : Char) (rest : List Char) :
    replWord (c :: d :: rest) =
      if isUp d && headIsLow rest then
        c :: '_' :: d :: (rest.takeWhile isLow ++ replWord (rest.dropWhile isLow))
      else c :: replWord (d :: rest) := by
  unfold replWord
  have hl : (c :: d :: rest).length = rest.length + 1 + 1 := by simp
  rw [hl]
  simp only [replWordF]
  split
  · rw [replWordF_fuel (rest.length + 1) (rest.dropWhile isLow)
      (rest.dropWhile isLow).length
      (le_trans (length_dropWhile_le isLow rest) (by omega)) le_rfl]
  · rw [replWordF_fuel (rest.length + 1) (d :: rest) (d :: rest).length
      (by simp) le_rfl]

/-- The `matchWord` pass keeps the first character in place. -/
theorem replWord_cons_head (d : Char) (rest : List Char) :
    ∃ t, replWord (d :: rest) = d :: t := by
  cases rest with
  | nil => exact ⟨[], rfl⟩
  | cons e r =>
    rw [replWord_cons2]
    split
    · exact ⟨_, rfl⟩
    · exact ⟨_, rfl⟩

/-- Unfolding equation of the `matchAcronym` pass at a match. -/
theorem replAcr_cons2_pos (c d : Char) (rest : List Char)
    (h : ((isLow c || isDig c) && isUp d) = true) :
    replAcr (c :: d :: rest) = c :: '_' :: d :: replAcr rest := by
  simp [replAcr, h]

/-- Unfolding equation of the `matchAcronym` pass at a non-match. -/
theorem replAcr_cons2_neg (c d : Char) (rest : List Char)
    (h : ((isLow c || isDig c) && isUp d) = false) :
    replAcr (c :: d :: rest) = c :: replAcr (d :: rest) := by
  simp only [replAcr]
  rw [if_neg (by simp [h])]

/-- The `matchAcronym` pass steps over an uppercase head untouched
(an uppercase letter can never be the first character of a match). -/
theorem replAcr_cons_upper (d : Char) (rest : List Char) (h : isUp d = true) :
    replAcr (d :: rest) = d :: replAcr rest := by
  cases rest with
  | nil => rfl
  | cons e r =>
    exact replAcr_cons2_neg d e r (by simp [isLow_of_isUp d h, isDig_of_isUp d h])

/-- Unfolding equation of the spec's marker at a boundary. -/
theorem specMark_cons2_pos (c d : Char) (rest : List Char)
    (h : specBoundary c d rest = true) :
    specMark (c :: d :: rest) = c :: '_' :: specMark (d :: rest) := by
  simp [specMark, h]

/-- Unfolding equation of the spec's marker at a non-boundary. -/
theorem specMark_cons2_neg (c d : Char) (rest : List Char)
    (h : specBoundary c d rest = false) :
    specMark (c :: d :: rest) = c :: specMark (d :: rest) := by
  simp only [specMark]
  rw [if_neg (by simp [h])]

/-- Auxiliary step for the main equivalence: scanning the
`matchAcronym` pass across a lowercase run (the tail of a consumed
`matchWord` match) followed by the already-rewritten remainder agrees
with the spec's marker, assuming the equivalence (`IH`) for shorter
lists. -/
theorem replAcr_run_aux (N : Nat)
    (IH : ∀ l : List Char, l.length ≤ N → replAcr (replWord l) = specMark l) :
    ∀ (run rest3 : List Char), (∀ x ∈ run, isLow x = true) →
      headIsLow rest3 = false → (run ++ rest3).length ≤ N →
      replAcr (run ++ replWord rest3) = specMark (run ++ rest3) := by
  intro run
  induction run with
  | nil =>
    intro rest3 _ _ hlen
    simpa using IH rest3 (by simpa using hlen)
  | cons x run2 ih =>
    intro rest3 hrun hr3 hlen
    have hx : isLow x = true := hrun x (by simp)
    cases run2 with
    | nil =>
      cases rest3 with
      | nil => rfl
      | cons f rest4 =>
        have hf : isLow f = false := by simpa [headIsLow] using hr3
        obtain ⟨t, ht⟩ := replWord_cons_head f rest4
        have hlen' : (f :: rest4).length ≤ N := by simp at hlen ⊢; omega
        by_cases hUf : isUp f = true
        · have hcond : ((isLow x || isDig x) && isUp f) = true := by simp [hx, hUf]
          have hbnd : specBoundary x f rest4 = true := by
            simp [specBoundary, hUf, hx]
          rw [List.singleton_append, ht, replAcr_cons2_pos x f t hcond,
            show f :: replAcr t = replAcr (f :: t) from
              (replAcr_cons_upper f t hUf).symm,
            ← ht, IH (f :: rest4) hlen', List.singleton_append,
            specMark_cons2_pos x f rest4 hbnd]
        · have hUf' : isUp f = false := by simpa using hUf
          have hcond : ((isLow x || isDig x) && isUp f) = false := by
            simp [hUf']
          have hbnd : specBoundary x f rest4 = false := by
            simp [specBoundary, hUf']
          rw [List.singleton_append, ht, replAcr_cons2_neg x f t hcond, ← ht,
            IH (f :: rest4) hlen', List.singleton_append,
            specMark_cons2_neg x f rest4 hbnd]
    | cons y run3 =>
      have hy : isLow y = true := hrun y (by simp)
      have hyUp : isUp y = false := isUp_of_isLow y hy
      have hcond : ((isLow x || isDig x) && isUp y) = false := by simp [hyUp]
      have hbnd : specBoundary x y (run3 ++ rest3) = false := by
        simp [specBoundary, hyUp]
      have hstep := ih rest3 (fun a ha => hrun a (by simp [ha]))
        hr3 (by simp at hlen ⊢; omega)
      calc replAcr ((x :: y :: run3) ++ replWord rest3)
          = replAcr (x :: y :: (run3 ++ replWord rest3)) := by simp
        _ = x :: replAcr (y :: (run3 ++ replWord rest3)) :=
            replAcr_cons2_neg x y _ hcond
        _ = x :: replAcr ((y :: run3) ++ replWord rest3) := by simp
        _ = x :: specMark ((y :: run3) ++ rest3) := by rw [hstep]
        _ = x :: specMark (y :: (run3 ++ rest3)) := by simp
        _ = specMark (x :: y :: (run3 ++ rest3)) :=
            (specMark_cons2_neg x y _ hbnd).symm
        _ = specMark ((x :: y :: run3) ++ rest3) := by simp

/-- The composition of the source's two regexp passes inserts
underscores at exactly the spec's boundary positions: the
`matchAcronym` pass applied to the `matchWord` pass equals the spec's
one-scan marker. -/
theorem replAcr_replWord_eq_specMark (l : List Char) :
    replAcr (replWord l) = specMark l := by
  suffices h : ∀ (N : Nat) (l : List Char), l.length ≤ N →
      replAcr (replWord l) = specMark l from h l.length l le_rfl
  intro N
  induction N with
  | zero =>
    intro l h
    have : l = [] := List.eq_nil_of_length_eq_zero (Nat.le_zero.mp h)
    subst this
    rfl
  | succ N ih =>
    intro l hlen
    cases l with
    | nil => rfl
    | cons c l2 =>
      cases l2 with
      | nil => rfl
      | cons d rest =>
        rw [replWord_cons2]
        by_cases hmatch : (isUp d && headIsLow rest) = true
        · rw [if_pos hmatch]
          obtain ⟨hUd, hLrest⟩ : isUp d = true ∧ headIsLow rest = true := by
            simpa using hmatch
          cases rest with
          | nil => simp [headIsLow] at hLrest
          | cons e rest2 =>
            have he : isLow e = true := by simpa [headIsLow] using hLrest
            have c1 : ((isLow c || isDig c) && isUp '_') = false := by
              simp [show isUp '_' = false from by decide]
            have c2 : ((isLow '_' || isDig '_') && isUp d) = false := by
              simp [show isLow '_' = false from by decide,
                show isDig '_' = false from by decide]
            have c3 : ((isLow d || isDig d) && isUp e) = false := by
              simp [isUp_of_isLow e he]
            have htw : (e :: rest2).takeWhile isLow = e :: rest2.takeWhile isLow := by
              rw [List.takeWhile_cons, if_pos he]
            have hrun : ∀ x ∈ e :: rest2.takeWhile isLow, isLow x = true := by
              intro x hx
              rcases List.mem_cons.mp hx with rfl | hx
              · exact he
              · exact List.mem_takeWhile_imp hx
            have hsplit : (e :: rest2.takeWhile isLow) ++
                (e :: rest2).dropWhile isLow = e :: rest2 := by
              rw [← htw, List.takeWhile_append_dropWhile]
            have hlen' : ((e :: rest2.takeWhile isLow) ++
                (e :: rest2).dropWhile isLow).length ≤ N := by
              rw [hsplit]
              simp at hlen ⊢
              omega
            have haux := replAcr_run_aux N ih (e :: rest2.takeWhile isLow)
              ((e :: rest2).dropWhile isLow) hrun
              (headIsLow_dropWhile (e :: rest2)) hlen'
            have hbnd1 : specBoundary c d (e :: rest2) = true := by
              simp [specBoundary, hUd, headIsLow, he]
            have hbnd2 : specBoundary d e rest2 = false := by
              simp [specBoundary, isUp_of_isLow e he]
            calc replAcr (c :: '_' :: d ::
                  ((e :: rest2).takeWhile isLow ++
                    replWord ((e :: rest2).dropWhile isLow)))
                = c :: replAcr ('_' :: d ::
                    ((e :: rest2).takeWhile isLow ++
                      replWord ((e :: rest2).dropWhile isLow))) :=
                  replAcr_cons2_neg c '_' _ c1
              _ = c :: '_' :: replAcr (d ::
                    ((e :: rest2).takeWhile isLow ++
                      replWord ((e :: rest2).dropWhile isLow))) := by
                  rw [replAcr_cons2_neg '_' d _ c2]
              _ = c :: '_' :: replAcr (d :: e ::
                    (rest2.takeWhile isLow ++
                      replWord ((e :: rest2).dropWhile isLow))) := by
                  rw [htw]
                  simp
              _ = c :: '_' :: d :: replAcr (e ::
                    (rest2.takeWhile isLow ++
                      replWord ((e :: rest2).dropWhile isLow))) := by
                  rw [replAcr_cons2_neg d e _ c3]
              _ = c :: '_' :: d :: replAcr ((e :: rest2.takeWhile isLow) ++
                      replWord ((e :: rest2).dropWhile isLow)) := by
                  simp
              _ = c :: '_' :: d :: specMark ((e :: rest2.takeWhile isLow) ++
                      (e :: rest2).dropWhile isLow) := by rw [haux]
              _ = c :: '_' :: d :: specMark (e :: rest2) := by rw [hsplit]
              _ = c :: '_' :: specMark (d :: e :: rest2) := by
                  rw [specMark_cons2_neg d e rest2 hbnd2]
              _ = specMark (c :: d :: e :: rest2) := by
                  rw [specMark_cons2_pos c d (e :: rest2) hbnd1]
        · rw [if_neg hmatch]
          have hmatch' : (isUp d && headIsLow rest) = false := by
            simpa using hmatch
          obtain ⟨t, ht⟩ := replWord_cons_head d rest
          have hlen' : (d :: rest).length ≤ N := by simp at hlen ⊢; omega
          by_cases hUd : isUp d = true
          · have hLrest : headIsLow rest = false := by
              rcases Bool.and_eq_false_iff.mp hmatch' with h | h
              · rw [hUd] at h; cases h
              · exact h
            by_cases hcd : (isLow c || isDig c) = true
            · have hcond : ((isLow c || isDig c) && isUp d) = true := by
                simp [hcd, hUd]
              have hbnd : specBoundary c d rest = true := by
                have : isLow c = true ∨ isDig c = true := by simpa using hcd
                simp [specBoundary, hUd, this]
              rw [ht, replAcr_cons2_pos c d t hcond,
                show d :: replAcr t = replAcr (d :: t) from
                  (replAcr_cons_upper d t hUd).symm,
                ← ht, ih (d :: rest) hlen',
                specMark_cons2_pos c d rest hbnd]
            · have hcd' : (isLow c || isDig c) = false := by simpa using hcd
              have hcond : ((isLow c || isDig c) && isUp d) = false := by
                simp [hcd']
              have hbnd : specBoundary c d rest = false := by
                simp [specBoundary, hcd', hLrest]
              rw [ht, replAcr_cons2_neg c d t hcond, ← ht,
                ih (d :: rest) hlen', specMark_cons2_neg c d rest hbnd]
          · have hUd' : isUp d = false := by simpa using hUd
            have hcond : ((isLow c || isDig c) && isUp d) = false := by
              simp [hUd']
            have hbnd : specBoundary c d rest = false := by
              simp [specBoundary, hUd']
            rw [ht, replAcr_cons2_neg c d t hcond, ← ht,
              ih (d :: rest) hlen', specMark_cons2_neg c d rest hbnd]

/-- The spec's marker keeps the first character in place. -/
theorem specMark_cons_head (c : Char) (l : List Char) :
    ∃ t, specMark (c :: l) = c :: t := by
  cases l with
  | nil => exact ⟨[], rfl⟩
  | cons d rest =>
    by_cases h : specBoundary c d rest = true
    · exact ⟨_, specMark_cons2_pos c d rest h⟩
    · exact ⟨_, specMark_cons2_neg c d rest (by simpa using h)⟩

/-- The spec's marker keeps the last character in place: an inserted
underscore is always followed by more output. -/
theorem specMark_getLast? : ∀ l : List Char, (specMark l).getLast? = l.getLast? := by
  intro l
  induction l with
  | nil => rfl
  | cons c l2 ih =>
    cases l2 with
    | nil => rfl
    | cons d rest =>
      obtain ⟨t, ht⟩ := specMark_cons_head d rest
      by_cases h : specBoundary c d rest = true
      · rw [specMark_cons2_pos c d rest h, ht, List.getLast?_cons_cons,
          List.getLast?_cons_cons, ← ht, ih, List.getLast?_cons_cons]
      · rw [specMark_cons2_neg c d rest (by simpa using h), ht,
          List.getLast?_cons_cons, ← ht, ih, List.getLast?_cons_cons]

/-- The `matchWord` pass is the identity on uppercase-free input (no
fuel is ever consumed at a match). -/
theorem replWordF_id_of_no_upper :
    ∀ (fuel : Nat) (l : List Char), (∀ c ∈ l, isUp c = false) →
      replWordF fuel l = l := by
  intro fuel
  induction fuel with
  | zero =>
    intro l _
    cases l with
    | nil => rfl
    | cons c l2 =>
      cases l2 with
      | nil => rfl
      | cons d rest => rfl
  | succ f ih =>
    intro l h
    cases l with
    | nil => rfl
    | cons c l2 =>
      cases l2 with
      | nil => rfl
      | cons d rest =>
        have hUd : isUp d = false := h d (by simp)
        simp only [replWordF]
        rw [if_neg (by simp [hUd])]
        rw [ih (d :: rest) (fun x hx => h x (List.mem_cons_of_mem c hx))]

/-- The `matchAcronym` pass is the identity on uppercase-free input. -/
theorem replAcr_id_of_no_upper :
    ∀ l : List Char, (∀ c ∈ l, isUp c = false) → replAcr l = l := by
  intro l
  induction l with
  | nil => intro _; rfl
  | cons c l2 ih =>
    intro h
    cases l2 with
    | nil => rfl
    | cons d rest =>
      have hUd : isUp d = false := h d (by simp)
      rw [replAcr_cons2_neg c d rest (by simp [hUd])]
      rw [ih (fun x hx => h x (List.mem_cons_of_mem c hx))]

/-- Lowercasing is the identity on uppercase-free input. -/
theorem map_lowerChar_id_of_no_upper :
    ∀ l : List Char, (∀ c ∈ l, isUp c = false) → l.map lowerChar = l := by
  intro l
  induction l with
  | nil => intro _; rfl
  | cons c rest ih =>
    intro h
    rw [List.map_cons, lowerChar_of_not_up c (h c (by simp)),
      ih (fun x hx => h x (List.mem_cons_of_mem c hx))]

/-- Every character of a lowercased list is uppercase-free. -/
theorem no_upper_of_map_lowerChar (l : List Char) :
    ∀ c ∈ l.map lowerChar, isUp c = false := by
  intro c hc
  obtain ⟨a, _, rfl⟩ := List.mem_map.mp hc
  exact isUp_lowerChar a

/-- `snakeCase` is idempotent: its output contains no uppercase
letters, so both regexp passes and the lowercasing fix it. -/
theorem snakeCase_idem (s : String) : snakeCase (snakeCase s) = snakeCase s := by
  have hnoup := no_upper_of_map_lowerChar (replAcr (replWord s.data))
  have h1 : replWord ((replAcr (replWord s.data)).map lowerChar) =
      (replAcr (replWord s.data)).map lowerChar :=
    replWordF_id_of_no_upper _ _ hnoup
  show String.mk ((replAcr (replWord
      ((replAcr (replWord s.data)).map lowerChar))).map lowerChar) = _
  rw [h1, replAcr_id_of_no_upper _ hnoup,
    map_lowerChar_id_of_no_upper _ hnoup]
  rfl

/-- C9: `snakeCase` equals the spec's description (input lowercased
with an underscore inserted exactly at each boundary of kind (a)
lowercase-or-digit before uppercase and kind (b) any character before
an uppercase letter that begins a capitalized word — so an acronym
run stays one word); on alphanumeric input the output never starts or
ends with an underscore; `snakeCase` is idempotent (and, being a
function, deterministic); and `"ChimpanzeeRPCWorld"` maps to
`"chimpanzee_rpc_world"`. -/
theorem c9_snake_case (s : String) (h : ∀ c ∈ s.data, isAlnum c = true) :
    snakeCase s = snakeCaseSpec s ∧
    (snakeCase s).data.head? ≠ some '_' ∧
    (snakeCase s).data.getLast? ≠ some '_' ∧
    snakeCase (snakeCase s) = snakeCase s ∧
    snakeCase "ChimpanzeeRPCWorld" = "chimpanzee_rpc_world" := by
  have heq : snakeCase s = snakeCaseSpec s := by
    unfold snakeCase snakeCaseSpec
    rw [replAcr_replWord_eq_specMark]
  refine ⟨heq, ?_, ?_, snakeCase_idem s, by decide⟩
  · rw [heq]
    show ((specMark s.data).map lowerChar).head? ≠ some '_'
    rw [List.head?_map]
    cases hd : s.data with
    | nil => simp [specMark]
    | cons c l =>
      obtain ⟨t, ht⟩ := specMark_cons_head c l
      rw [ht]
      have hc : isAlnum c = true := h c (by rw [hd]; simp)
      simpa using lowerChar_ne_underscore c hc
  · rw [heq]
    show ((specMark s.data).map lowerChar).getLast? ≠ some '_'
    rw [List.getLast?_map, specMark_getLast?]
    cases hg : s.data.getLast? with
    | none => simp
    | some a =>
      have ha : isAlnum a = true := h a (List.mem_of_mem_getLast? hg)
      simpa using lowerChar_ne_underscore a ha

/-- C9 witness: the acronym-run example itself. -/
theorem c9_snake_case_witness :
    snakeCase "ChimpanzeeRPCWorld" = snakeCaseSpec "ChimpanzeeRPCWorld" ∧
    (snakeCase "ChimpanzeeRPCWorld").data.head? ≠ some '_' ∧
    (snakeCase "ChimpanzeeRPCWorld").data.getLast? ≠ some '_' ∧
    snakeCase (snakeCase "ChimpanzeeRPCWorld") = snakeCase "ChimpanzeeRPCWorld" ∧
    snakeCase "ChimpanzeeRPCWorld" = "chimpanzee_rpc_world" :=
  c9_snake_case "ChimpanzeeRPCWorld" (by decide)

end Sx
